import Mathlib

/-!
Verification of the box-compression / move-size-tuning workflow of the
hoomd-soft-matter-2021 notebooks.

The repository drives an external HPMC engine: the notebooks build a
`QuickCompress` updater, a `MoveSize` tuner and driver loops around
`sim.run`.  The driver loops, the target-box computations and the lattice
initialization are code of the repository and are embedded here directly
from the notebook cells.  The internals of `QuickCompress` and of the
trigger primitives live in the external engine; where a claim is decided
by those internals they are modelled from the spec, and each such
definition says so in its doc comment.
-/

namespace SoftMatter

/-! ### Spec-modelled box-compression controller

`Modelled from the spec:` the repository does not contain the source of
the `QuickCompress` updater (only its construction and its driver loops
are in the notebooks).  The controller state and its per-trigger step are
modelled from the design in the spec: on a trigger tick the controller
skips when overlaps remain, does nothing once the box equals the target,
and otherwise moves the box volume toward the target along a geometric
interpolation clamped at the target. -/

/-- Controller-visible state: the live box volume, the overlap count of
the current configuration, and an abstract payload standing for the rest
of the configuration (particle data). -/
structure CState where
  vol : ℚ
  overlaps : ℕ
  cfg : ℕ
  deriving DecidableEq, Repr

/-- Modelled from the spec: the completion predicate of the compression
controller, `complete = (current box == target box) AND (overlap count == 0)`,
computed from the current state each time it is read. -/
def complete (target : ℚ) (s : CState) : Bool :=
  s.vol == target && s.overlaps == 0

/-- Modelled from the spec: one trigger tick of the compression
controller.  `scale` is the geometric interpolation factor (0 < scale < 1).
If overlaps remain the tick is a skip; if the box is already at the target
nothing happens; otherwise the volume moves toward the target, clamped so
it never passes it.  The abstract configuration payload is untouched by
the no-op paths. -/
def tick (scale target : ℚ) (s : CState) : CState :=
  if s.overlaps ≠ 0 then s
  else if s.vol = target then s
  else if target < s.vol then { s with vol := max target (s.vol * scale) }
  else { s with vol := min target (s.vol / scale) }

/-- Modelled from the spec: the driven compression process.  Between
trigger ticks the external trial-move engine mutates the configuration and
its overlap count; the engine is abstracted as the function `f`, giving
the overlap count it leaves before the `n`-th tick.  The box volume is
only ever changed by `tick`. -/
def evolveN (scale target : ℚ) (f : ℕ → ℕ) (s : CState) : ℕ → CState
  | 0 => s
  | n + 1 => tick scale target { evolveN scale target f s n with overlaps := f n }

theorem tick_vol_le (scale target : ℚ) (s : CState)
    (hs1 : 0 < scale) (hs2 : scale < 1) (hts : target ≤ s.vol) (hv : 0 < s.vol) :
    (tick scale target s).vol ≤ s.vol ∧ target ≤ (tick scale target s).vol ∧
      0 < (tick scale target s).vol := by
  unfold tick
  split
  · exact ⟨le_refl _, hts, hv⟩
  split
  · exact ⟨le_refl _, hts, hv⟩
  split
  · refine ⟨max_le hts (le_of_lt (mul_lt_of_lt_one_right hv hs2)), le_max_left _ _, ?_⟩
    exact lt_of_lt_of_le (mul_pos hv hs1) (le_max_right _ _)
  · rename_i h1 h2 h3
    exact absurd (lt_of_le_of_ne hts (Ne.symm h2)) h3

theorem tick_vol_ge (scale target : ℚ) (s : CState)
    (hs1 : 0 < scale) (hs2 : scale < 1) (hts : s.vol ≤ target) (hv : 0 < s.vol) :
    s.vol ≤ (tick scale target s).vol ∧ (tick scale target s).vol ≤ target ∧
      0 < (tick scale target s).vol := by
  unfold tick
  split
  · exact ⟨le_refl _, hts, hv⟩
  split
  · exact ⟨le_refl _, hts, hv⟩
  split
  · rename_i h1 h2 h3
    exact absurd (lt_of_le_of_ne hts h2) (lt_asymm h3)
  · refine ⟨le_min hts ?_, min_le_left _ _,
      lt_min (lt_of_lt_of_le hv hts) (div_pos hv hs1)⟩
    rw [le_div_iff₀ hs1]
    exact le_of_lt (mul_lt_of_lt_one_right hv hs2)

theorem evolveN_succ (scale target : ℚ) (f : ℕ → ℕ) (s0 : CState) (n : ℕ) :
    evolveN scale target f s0 (n + 1) =
      tick scale target { evolveN scale target f s0 n with overlaps := f n } :=
  rfl

theorem evolveN_inv_comp (scale target : ℚ) (f : ℕ → ℕ) (s0 : CState)
    (hs1 : 0 < scale) (hs2 : scale < 1) (hts : target ≤ s0.vol) (hv : 0 < s0.vol) :
    ∀ n, target ≤ (evolveN scale target f s0 n).vol ∧
      0 < (evolveN scale target f s0 n).vol := by
  intro n
  induction n with
  | zero => exact ⟨hts, hv⟩
  | succ n ih =>
    rw [evolveN_succ]
    have h := tick_vol_le scale target
      { evolveN scale target f s0 n with overlaps := f n } hs1 hs2 ih.1 ih.2
    exact ⟨h.2.1, h.2.2⟩

theorem evolveN_inv_exp (scale target : ℚ) (f : ℕ → ℕ) (s0 : CState)
    (hs1 : 0 < scale) (hs2 : scale < 1) (hts : s0.vol ≤ target) (hv : 0 < s0.vol) :
    ∀ n, (evolveN scale target f s0 n).vol ≤ target ∧
      0 < (evolveN scale target f s0 n).vol := by
  intro n
  induction n with
  | zero => exact ⟨hts, hv⟩
  | succ n ih =>
    rw [evolveN_succ]
    have h := tick_vol_ge scale target
      { evolveN scale target f s0 n with overlaps := f n } hs1 hs2 ih.1 ih.2
    exact ⟨h.2.1, h.2.2⟩

/-- C1: the controller's completion predicate is exactly the conjunction
`current box = target box AND overlap count = 0`; it is a pure function of
the current state (same box and overlap count give the same answer, so it
is re-evaluated fresh on every check rather than latched), and once true
it remains true across a trigger tick that requests no further shrink. -/
theorem claim_C1_complete_predicate (scale target : ℚ) (s : CState) :
    (complete target s = true ↔ (s.vol = target ∧ s.overlaps = 0)) ∧
    (∀ s' : CState, s.vol = s'.vol → s.overlaps = s'.overlaps →
      complete target s = complete target s') ∧
    (complete target s = true → complete target (tick scale target s) = true) := by
  refine ⟨?_, ?_, ?_⟩
  · simp [complete]
  · intro s' h1 h2
    simp [complete, h1, h2]
  · intro h
    have h' : s.vol = target ∧ s.overlaps = 0 := by simpa [complete] using h
    have : tick scale target s = s := by
      unfold tick
      rw [if_neg (by simp [h'.2]), if_pos h'.1]
    rw [this]
    exact h

theorem claim_C1_witness :
    (complete 2 ⟨2, 0, 7⟩ = true ↔
        ((⟨2, 0, 7⟩ : CState).vol = 2 ∧ (⟨2, 0, 7⟩ : CState).overlaps = 0)) ∧
    (∀ s' : CState, (⟨2, 0, 7⟩ : CState).vol = s'.vol →
      (⟨2, 0, 7⟩ : CState).overlaps = s'.overlaps →
      complete 2 ⟨2, 0, 7⟩ = complete 2 s') ∧
    (complete 2 ⟨2, 0, 7⟩ = true →
      complete 2 (tick (1/2) 2 ⟨2, 0, 7⟩) = true) :=
  claim_C1_complete_predicate (1/2) 2 ⟨2, 0, 7⟩

/-- C4: along any driven run of the controller (the trial-move engine
feeding back arbitrary overlap counts between ticks), the sequence of live
box volumes is non-increasing and never passes below the target when the
target is at most the starting volume, and is non-decreasing and never
passes above the target when the target is at least the starting volume. -/
theorem claim_C4_volumes_monotone (scale target : ℚ) (f : ℕ → ℕ) (s0 : CState)
    (hs1 : 0 < scale) (hs2 : scale < 1) (hv : 0 < s0.vol) :
    ∀ n : ℕ,
      (target ≤ s0.vol →
        (evolveN scale target f s0 (n + 1)).vol ≤ (evolveN scale target f s0 n).vol ∧
          target ≤ (evolveN scale target f s0 n).vol) ∧
      (s0.vol ≤ target →
        (evolveN scale target f s0 n).vol ≤ (evolveN scale target f s0 (n + 1)).vol ∧
          (evolveN scale target f s0 n).vol ≤ target) := by
  intro n
  constructor
  · intro hts
    have inv := evolveN_inv_comp scale target f s0 hs1 hs2 hts hv n
    have h := tick_vol_le scale target
      { evolveN scale target f s0 n with overlaps := f n } hs1 hs2 inv.1 inv.2
    rw [evolveN_succ]
    exact ⟨h.1, inv.1⟩
  · intro hts
    have inv := evolveN_inv_exp scale target f s0 hs1 hs2 hts hv n
    have h := tick_vol_ge scale target
      { evolveN scale target f s0 n with overlaps := f n } hs1 hs2 inv.1 inv.2
    rw [evolveN_succ]
    exact ⟨h.1, inv.1⟩

theorem claim_C4_witness :
    (0:ℚ) < 1/2 ∧ (1/2:ℚ) < 1 ∧ (0:ℚ) < (⟨4, 0, 0⟩ : CState).vol ∧
    ∀ n : ℕ,
      ((1:ℚ) ≤ (⟨4, 0, 0⟩ : CState).vol →
        (evolveN (1/2) 1 (fun _ => 0) ⟨4, 0, 0⟩ (n + 1)).vol ≤
            (evolveN (1/2) 1 (fun _ => 0) ⟨4, 0, 0⟩ n).vol ∧
          (1:ℚ) ≤ (evolveN (1/2) 1 (fun _ => 0) ⟨4, 0, 0⟩ n).vol) ∧
      ((⟨4, 0, 0⟩ : CState).vol ≤ (1:ℚ) →
        (evolveN (1/2) 1 (fun _ => 0) ⟨4, 0, 0⟩ n).vol ≤
            (evolveN (1/2) 1 (fun _ => 0) ⟨4, 0, 0⟩ (n + 1)).vol ∧
          (evolveN (1/2) 1 (fun _ => 0) ⟨4, 0, 0⟩ n).vol ≤ (1:ℚ)) :=
  ⟨by norm_num, by norm_num, by norm_num [CState.vol],
    claim_C4_volumes_monotone (1/2) 1 (fun _ => 0) ⟨4, 0, 0⟩
      (by norm_num) (by norm_num) (by norm_num [CState.vol])⟩

/-- C5: on a trigger tick where the overlap count is nonzero the
controller leaves the state untouched, and contrapositively any tick that
changes the box volume started from a state with zero overlaps. -/
theorem claim_C5_skip_when_overlaps (scale target : ℚ) (s : CState) :
    (s.overlaps ≠ 0 → tick scale target s = s) ∧
    ((tick scale target s).vol ≠ s.vol → s.overlaps = 0) := by
  constructor
  · intro h
    unfold tick
    rw [if_pos h]
  · intro h
    by_contra hne
    apply h
    unfold tick
    rw [if_pos hne]

theorem claim_C5_witness :
    ((⟨4, 3, 0⟩ : CState).overlaps ≠ 0 → tick (1/2) 1 ⟨4, 3, 0⟩ = ⟨4, 3, 0⟩) ∧
    ((tick (1/2) 1 ⟨4, 3, 0⟩).vol ≠ (⟨4, 3, 0⟩ : CState).vol →
      (⟨4, 3, 0⟩ : CState).overlaps = 0) :=
  claim_C5_skip_when_overlaps (1/2) 1 ⟨4, 3, 0⟩

/-- C8: invoking the compression tick when the box already equals the
target and the overlap count is zero is a no-op; the whole state
(configuration payload included) is unchanged and the completion predicate
stays true. -/
theorem claim_C8_idempotent_at_target (scale target : ℚ) (s : CState)
    (hbox : s.vol = target) (hov : s.overlaps = 0) :
    tick scale target s = s ∧ complete target (tick scale target s) = true := by
  have hstep : tick scale target s = s := by
    unfold tick
    rw [if_neg (by simp [hov]), if_pos hbox]
  refine ⟨hstep, ?_⟩
  rw [hstep]
  simp [complete, hbox, hov]

theorem claim_C8_witness :
    tick (1/2) 3 ⟨3, 0, 9⟩ = ⟨3, 0, 9⟩ ∧
      complete 3 (tick (1/2) 3 ⟨3, 0, 9⟩) = true :=
  claim_C8_idempotent_at_target (1/2) 3 ⟨3, 0, 9⟩ rfl rfl

/-! ### Compression driver loops

The three driver loops around `sim.run(1000)` are repository code and are
embedded directly.  The engine (integrator + QuickCompress) is abstracted
as the oracle `c : ℕ → Bool` giving the value of `compress.complete` when
read at a given timestep; `sim.run(1000)` advances the timestep by 1000. -/

/-- Outcome of a compression driver: either the final
`hoomd.write.GSD.write(..., filename='compressed.gsd')` is reached, or a
`RuntimeError` is raised first. -/
inductive DriverOutcome where
  | wroteFile
  | raised
  deriving DecidableEq, Repr

/-- The `while not compress.complete and sim.timestep < budget:
sim.run(1000)` loop, returning the timestep at which the loop exits.  The
structural `fuel` argument only serves termination; `runLoop` supplies
enough fuel that the loop always reaches its real exit condition. -/
def driverLoop (c : ℕ → Bool) (budget : ℕ) : ℕ → ℕ → ℕ
  | 0, t => t
  | fuel + 1, t => if c t = false ∧ t < budget then driverLoop c budget fuel (t + 1000) else t

def runLoop (c : ℕ → Bool) (budget t0 : ℕ) : ℕ :=
  driverLoop c budget budget t0

theorem driverLoop_post (c : ℕ → Bool) (budget : ℕ) :
    ∀ fuel t, budget - t ≤ fuel →
      c (driverLoop c budget fuel t) = true ∨ budget ≤ driverLoop c budget fuel t := by
  intro fuel
  induction fuel with
  | zero =>
    intro t ht
    right
    simpa [driverLoop] using Nat.le_of_sub_eq_zero (Nat.le_zero.mp ht)
  | succ fuel ih =>
    intro t ht
    rw [driverLoop]
    split
    · exact ih (t + 1000) (by omega)
    · rename_i h
      rcases Decidable.not_and_iff_or_not.mp h with h' | h'
      · left
        simpa using h'
      · right
        omega

/-- Every exit of the driver loop satisfies the negation of the loop
condition: either `compress.complete` holds at the exit timestep or the
step budget is exhausted. -/
theorem runLoop_post (c : ℕ → Bool) (budget t0 : ℕ) :
    c (runLoop c budget t0) = true ∨ budget ≤ runLoop c budget t0 :=
  driverLoop_post c budget budget t0 (Nat.sub_le _ _)

/-- The homework `compress(params)` driver: loop with budget 5e4, then
`if not compress.complete: raise RuntimeError(...)`, then write
`compressed.gsd`.  Returns the exit timestep and the outcome. -/
def compressHomework (c : ℕ → Bool) (t0 : ℕ) : ℕ × DriverOutcome :=
  let t := runLoop c 50000 t0
  (t, if c t then DriverOutcome.wroteFile else DriverOutcome.raised)

/-- The hard-sphere tutorial driver: loop with budget 1e6, then the raise
check in a later cell, then the write cell. -/
def compressTutorial (c : ℕ → Bool) (t0 : ℕ) : ℕ × DriverOutcome :=
  let t := runLoop c 1000000 t0
  (t, if c t then DriverOutcome.wroteFile else DriverOutcome.raised)

/-- The spherocylinder slide-deck compression cell (src/unnamed/part_000):
loop with budget 5e4 followed immediately by the `compressed.gsd` write,
with no completeness check in between. -/
def compressSlides (c : ℕ → Bool) (t0 : ℕ) : ℕ × DriverOutcome :=
  (runLoop c 50000 t0, DriverOutcome.wroteFile)

/-- C2 counterexample: with an engine whose `complete` flag never becomes
true, the slide-deck driver exhausts its 5e4 budget with `complete` still
false and nevertheless writes `compressed.gsd`, so not every driver in the
repository raises on a compression timeout. -/
theorem claim_C2_counterexample :
    (compressSlides (fun _ => false) 0).2 = DriverOutcome.wroteFile ∧
    (fun _ => (false : Bool)) ((compressSlides (fun _ => false) 0).1) = false ∧
    50000 ≤ (compressSlides (fun _ => false) 0).1 := by
  refine ⟨rfl, rfl, ?_⟩
  rcases runLoop_post (fun _ => false) 50000 0 with h | h
  · simp at h
  · exact h

/-- C2 amended: the homework driver and the hard-sphere tutorial driver
raise (and do not write `compressed.gsd`) whenever their step budget is
exhausted with `compress.complete` still false, while the spherocylinder
slide-deck driver writes `compressed.gsd` unconditionally, never raising. -/
theorem claim_C2_timeout_raises (c : ℕ → Bool) (t0 : ℕ)
    (h1 : c (runLoop c 50000 t0) = false)
    (h2 : c (runLoop c 1000000 t0) = false) :
    (compressHomework c t0).2 = DriverOutcome.raised ∧
    (compressTutorial c t0).2 = DriverOutcome.raised ∧
    ∀ (c' : ℕ → Bool) (t0' : ℕ),
      (compressSlides c' t0').2 = DriverOutcome.wroteFile := by
  refine ⟨?_, ?_, fun c' t0' => rfl⟩
  · simp [compressHomework, h1]
  · simp [compressTutorial, h2]

theorem claim_C2_witness :
    ((fun _ => (false : Bool)) (runLoop (fun _ => false) 50000 0) = false) ∧
    ((fun _ => (false : Bool)) (runLoop (fun _ => false) 1000000 0) = false) ∧
    (compressHomework (fun _ => false) 0).2 = DriverOutcome.raised ∧
    (compressTutorial (fun _ => false) 0).2 = DriverOutcome.raised ∧
    ∀ (c' : ℕ → Bool) (t0' : ℕ),
      (compressSlides c' t0').2 = DriverOutcome.wroteFile := by
  refine ⟨rfl, rfl, ?_⟩
  exact claim_C2_timeout_raises (fun _ => false) 0 rfl rfl

/-! ### Target-box computation (compress setup)

Embedded from the `compress(params)` cell of the homework notebook (the
slide-deck cell is identical): `rho_c = 2/(sqrt(2) + (L/D)*sqrt(3))`,
`rho = rho_c * rho_star`, `box_V = N_particles / rho`.  Python float
arithmetic is embedded as exact real arithmetic. -/

noncomputable def rho_c (L D : ℝ) : ℝ :=
  2 / (Real.sqrt 2 + (L / D) * Real.sqrt 3)

noncomputable def rho (L D rho_star : ℝ) : ℝ :=
  rho_c L D * rho_star

noncomputable def box_V (L D rho_star : ℝ) (N : ℕ) : ℝ :=
  (N : ℝ) / rho L D rho_star

/-- The packing-fraction-to-volume conversion in the spec's words: target
box volume = `N * V_particle / packing_fraction`.  This is also literally
the hard-sphere tutorial's computation
`final_box.volume = sim.state.N_particles * V_particle / final_packing_fraction`. -/
noncomputable def targetBoxVolume (N : ℕ) (Vp phi : ℝ) : ℝ :=
  (N : ℝ) * Vp / phi

/-- Modelled from the spec's glossary: the packing fraction corresponding
to a number density `rho` and per-particle volume `Vp` is `Vp * rho`
(ratio of total particle volume to box volume). -/
noncomputable def packingFraction (Vp r : ℝ) : ℝ := Vp * r

theorem rho_c_pos (L D : ℝ) (hL : 0 ≤ L) (hD : 0 < D) : 0 < rho_c L D := by
  unfold rho_c
  have h2 : 0 < Real.sqrt 2 := Real.sqrt_pos.mpr (by norm_num)
  have h3 : 0 ≤ (L / D) * Real.sqrt 3 :=
    mul_nonneg (div_nonneg hL hD.le) (Real.sqrt_nonneg 3)
  exact div_pos (by norm_num) (by linarith)

theorem rho_pos (L D rho_star : ℝ) (hL : 0 ≤ L) (hD : 0 < D)
    (hrs : 0 < rho_star) : 0 < rho L D rho_star :=
  mul_pos (rho_c_pos L D hL hD) hrs

/-- C3: the target box volume computed by the spherocylinder path,
`box_V = N / (rho_c * rho_star)`, satisfies the spec's conversion: for any
positive per-particle volume `Vp` it equals
`N * Vp / packing_fraction` at the packing fraction `Vp * rho` implied by
the number density, and the hard-sphere tutorial's computation is that
conversion verbatim. -/
theorem claim_C3_volume_conversion (L D rho_star Vp : ℝ) (N : ℕ)
    (hL : 0 ≤ L) (hD : 0 < D) (hrs : 0 < rho_star) (hVp : 0 < Vp) :
    box_V L D rho_star N =
      targetBoxVolume N Vp (packingFraction Vp (rho L D rho_star)) ∧
    ∀ (M : ℕ) (Vq phi : ℝ), targetBoxVolume M Vq phi = (M : ℝ) * Vq / phi := by
  refine ⟨?_, fun M Vq phi => rfl⟩
  have hr : 0 < rho L D rho_star := rho_pos L D rho_star hL hD hrs
  have hVp' : Vp ≠ 0 := ne_of_gt hVp
  have hr' : rho L D rho_star ≠ 0 := ne_of_gt hr
  unfold box_V targetBoxVolume packingFraction
  field_simp
  ring

theorem claim_C3_witness :
    (0:ℝ) ≤ 4 ∧ (0:ℝ) < 1 ∧ (0:ℝ) < 1/2 ∧ (0:ℝ) < 3 ∧
    (box_V 4 1 (1/2) 100 =
      targetBoxVolume 100 3 (packingFraction 3 (rho 4 1 (1/2))) ∧
    ∀ (M : ℕ) (Vq phi : ℝ), targetBoxVolume M Vq phi = (M : ℝ) * Vq / phi) :=
  ⟨by norm_num, by norm_num, by norm_num, by norm_num,
    claim_C3_volume_conversion 4 1 (1/2) 3 100
      (by norm_num) (by norm_num) (by norm_num) (by norm_num)⟩

/-! ### Setup-time error behaviour (C7)

The setup path raises only through Python arithmetic: `box_V = N / rho`
raises ZeroDivisionError when `rho == 0`, and for `rho < 0` the negative
`box_V` makes `box_V ** (1/3)` a complex number, which `hoomd.Box.cube`
rejects.  No explicit validation of the target exists in the source. -/

noncomputable def compressSetup (L D rho_star : ℝ) (N : ℕ) : Except String ℝ :=
  if rho L D rho_star = 0 then Except.error "ZeroDivisionError"
  else if box_V L D rho_star N < 0 then Except.error "TypeError"
  else Except.ok (box_V L D rho_star N)

/-- Modelled from the spec's glossary: the volume of a spherocylinder of
cylinder length `L` and diameter `D` (cylinder plus two hemispherical
caps), used to express the packing fraction implied by a reduced density. -/
noncomputable def spherocylinderVolume (L D : ℝ) : ℝ :=
  Real.pi * D ^ 2 * L / 4 + Real.pi * D ^ 3 / 6

/-- C7 counterexample: at `L=4, D=1, rho_star=2, N=50` the implied target
packing fraction exceeds 1, yet `compress` setup raises nothing — it hands
QuickCompress a positive target volume, so invalid targets with packing
fraction above 1 are not reported at setup time. -/
theorem claim_C7_counterexample :
    1 < packingFraction (spherocylinderVolume 4 1) (rho 4 1 2) ∧
    compressSetup 4 1 2 50 = Except.ok (box_V 4 1 2 50) := by
  have h2 : Real.sqrt 2 < 3/2 := by
    rw [show (3/2 : ℝ) = Real.sqrt ((3/2)^2) by
      rw [Real.sqrt_sq (by norm_num)]]
    exact Real.sqrt_lt_sqrt (by norm_num) (by norm_num)
  have h3 : Real.sqrt 3 < 7/4 := by
    rw [show (7/4 : ℝ) = Real.sqrt ((7/4)^2) by
      rw [Real.sqrt_sq (by norm_num)]]
    exact Real.sqrt_lt_sqrt (by norm_num) (by norm_num)
  have hpi : (3 : ℝ) < Real.pi := Real.pi_gt_three
  have hr : 0 < rho 4 1 2 := rho_pos 4 1 2 (by norm_num) (by norm_num) (by norm_num)
  constructor
  · unfold packingFraction spherocylinderVolume rho rho_c
    have hden : 0 < Real.sqrt 2 + (4 / 1 : ℝ) * Real.sqrt 3 := by
      have := Real.sqrt_pos.mpr (show (0:ℝ) < 2 by norm_num)
      have := Real.sqrt_nonneg (3:ℝ)
      nlinarith
    rw [div_mul_eq_mul_div, ← mul_div_assoc, lt_div_iff₀ hden]
    nlinarith [Real.sqrt_nonneg (2:ℝ), Real.sqrt_nonneg (3:ℝ)]
  · unfold compressSetup
    rw [if_neg (ne_of_gt hr), if_neg (not_lt.mpr ?_)]
    unfold box_V
    positivity

/-- C7 amended: for positive particle dimensions and at least one
particle, the setup path errors exactly when `rho_star ≤ 0` (where Python
float arithmetic fails); a target packing fraction greater than 1 still
has `rho_star > 0`, passes setup silently, and the failure is deferred to
the driver's step-budget timeout. -/
theorem claim_C7_setup_errors (L D rho_star : ℝ) (N : ℕ)
    (hL : 0 ≤ L) (hD : 0 < D) (hN : 1 ≤ N) :
    (∃ e, compressSetup L D rho_star N = Except.error e) ↔ rho_star ≤ 0 := by
  have hc : 0 < rho_c L D := rho_c_pos L D hL hD
  constructor
  · rintro ⟨e, he⟩
    by_contra hpos
    push_neg at hpos
    have hr : 0 < rho L D rho_star := mul_pos hc hpos
    have hbv : 0 ≤ box_V L D rho_star N := by
      unfold box_V
      positivity
    unfold compressSetup at he
    rw [if_neg (ne_of_gt hr), if_neg (not_lt.mpr hbv)] at he
    exact Except.noConfusion he
  · intro hle
    rcases lt_or_eq_of_le hle with hlt | heq
    · have hr : rho L D rho_star < 0 := mul_neg_of_pos_of_neg hc hlt
      have hbv : box_V L D rho_star N < 0 := by
        unfold box_V
        apply div_neg_of_pos_of_neg _ hr
        exact_mod_cast Nat.lt_of_lt_of_le Nat.zero_lt_one hN
      refine ⟨"TypeError", ?_⟩
      unfold compressSetup
      rw [if_neg (ne_of_lt hr), if_pos hbv]
    · refine ⟨"ZeroDivisionError", ?_⟩
      unfold compressSetup
      rw [if_pos (by unfold rho; rw [heq, mul_zero])]

theorem claim_C7_witness :
    (0:ℝ) ≤ 4 ∧ (0:ℝ) < 1 ∧ 1 ≤ 50 ∧
    ((∃ e, compressSetup 4 1 (-1) 50 = Except.error e) ↔ (-1:ℝ) ≤ 0) :=
  ⟨by norm_num, by norm_num, by norm_num,
    claim_C7_setup_errors 4 1 (-1) 50 (by norm_num) (by norm_num) (by norm_num)⟩

/-! ### Equilibration tuner trigger (C6)

The composition `And([Periodic(100), Before(sim.timestep + 5000)])` is
repository code from the `equilibrate` cells; the two trigger primitives
belong to the external engine and are modelled from the spec. -/

/-- Modelled from the spec: the `Periodic(period)` trigger fires on every
step that is a multiple of its period (phase 0). -/
def periodicTrigger (period t : ℕ) : Bool := t % period == 0

/-- Modelled from the spec: the `Before(cut)` trigger fires on steps
strictly before `cut`. -/
def beforeTrigger (cut t : ℕ) : Bool := decide (t < cut)

/-- The tuner trigger built in `equilibrate`:
`And([Periodic(100), Before(sim.timestep + 5000)])`, where `start` is the
value of `sim.timestep` when the trigger is built. -/
def equilibrateTuneTrigger (start t : ℕ) : Bool :=
  periodicTrigger 100 t && beforeTrigger (start + 5000) t

/-- The two trial-move amplitudes tuned by `MoveSize` (`d` translation,
`a` rotation). -/
structure MoveSizes where
  d : ℚ
  a : ℚ
  deriving DecidableEq, Repr

/-- The amplitudes after `n` steps of the equilibration run starting at
timestep `start`: the tuner (an arbitrary update function `adjust`)
rewrites the amplitudes exactly on the steps where its trigger fires. -/
def equilibrateTuneRun (adjust : ℕ → MoveSizes → MoveSizes) (start : ℕ)
    (ms : MoveSizes) : ℕ → MoveSizes
  | 0 => ms
  | n + 1 =>
    let prev := equilibrateTuneRun adjust start ms n
    if equilibrateTuneTrigger start (start + n) then adjust (start + n) prev else prev

theorem equilibrateTuneRun_stable (adjust : ℕ → MoveSizes → MoveSizes)
    (start : ℕ) (ms : MoveSizes) :
    ∀ k, equilibrateTuneRun adjust start ms (5000 + k) =
      equilibrateTuneRun adjust start ms 5000 := by
  intro k
  induction k with
  | zero => rfl
  | succ k ih =>
    show equilibrateTuneRun adjust start ms ((5000 + k) + 1) = _
    rw [equilibrateTuneRun]
    have hoff : equilibrateTuneTrigger start (start + (5000 + k)) = false := by
      unfold equilibrateTuneTrigger beforeTrigger
      simp [Bool.and_eq_false_iff]
    rw [hoff]
    simpa using ih

/-- C6: the equilibration tuner trigger fires exactly on steps that are a
multiple of 100 and strictly before the starting timestep plus 5000, and
consequently the trial-move amplitudes after any number of steps from 5000
through 200000 equal the amplitudes at step 5000 — the tuner never fires
again for the rest of the production run, whatever the tuning rule does. -/
theorem claim_C6_tuner_window (start t : ℕ)
    (adjust : ℕ → MoveSizes → MoveSizes) (ms : MoveSizes) :
    (equilibrateTuneTrigger start t = true ↔
      (t % 100 = 0 ∧ t < start + 5000)) ∧
    (∀ n, 5000 ≤ n → n ≤ 200000 →
      equilibrateTuneRun adjust start ms n =
        equilibrateTuneRun adjust start ms 5000) := by
  constructor
  · unfold equilibrateTuneTrigger periodicTrigger beforeTrigger
    simp
  · intro n h1 _
    have : n = 5000 + (n - 5000) := by omega
    rw [this]
    exact equilibrateTuneRun_stable adjust start ms (n - 5000)

theorem claim_C6_witness :
    (equilibrateTuneTrigger 0 300 = true ↔
      (300 % 100 = 0 ∧ 300 < 0 + 5000)) ∧
    (∀ n, 5000 ≤ n → n ≤ 200000 →
      equilibrateTuneRun (fun _ m => ⟨m.d + 1, m.a⟩) 0 ⟨1, 1⟩ n =
        equilibrateTuneRun (fun _ m => ⟨m.d + 1, m.a⟩) 0 ⟨1, 1⟩ 5000) :=
  claim_C6_tuner_window 0 300 (fun _ m => ⟨m.d + 1, m.a⟩) ⟨1, 1⟩

/-! ### Lattice initialization (C9)

Embedded from the homework `initialize(params)` cell: a `K × K` square
grid (`K = math.ceil(N_particles**(1/2))`) with spacing `1.1*D`, truncated
to the first `N_particles` points, in a periodic box
`[L, L, 2*(params.L + D)]` with `L = K * spacing`.  The hard-sphere
tutorial uses the cubic-root analogue `K = math.ceil(N_particles**(1/3))`.
Python float powers are embedded as exact real powers. -/

theorem exists_sq_ge (N : ℕ) : ∃ k, N ≤ k ^ 2 :=
  ⟨N, Nat.le_self_pow two_ne_zero N⟩

theorem exists_cube_ge (N : ℕ) : ∃ k, N ≤ k ^ 3 :=
  ⟨N, Nat.le_self_pow three_ne_zero N⟩

/-- `math.ceil(N**(1/2))`: the least `k` with `N ≤ k^2` (shown below to
equal the ceiling of the real square root). -/
def K2 (N : ℕ) : ℕ := Nat.find (exists_sq_ge N)

/-- `math.ceil(N**(1/3))`: the least `k` with `N ≤ k^3` (shown below to
equal the ceiling of the real cube root). -/
def K3 (N : ℕ) : ℕ := Nat.find (exists_cube_ge N)

theorem rpow_inv_nat_le_iff (N k m : ℕ) (hm : m ≠ 0) :
    (N : ℝ) ^ ((1 : ℝ) / m) ≤ (k : ℝ) ↔ N ≤ k ^ m := by
  have hcube : ((N : ℝ) ^ ((1 : ℝ) / m)) ^ (m : ℕ) = (N : ℝ) := by
    rw [← Real.rpow_natCast ((N : ℝ) ^ ((1 : ℝ) / m)) m, ← Real.rpow_mul (Nat.cast_nonneg N),
      one_div, inv_mul_cancel₀ (by exact_mod_cast hm), Real.rpow_one]
  constructor
  · intro h
    have := pow_le_pow_left₀ (Real.rpow_nonneg (Nat.cast_nonneg N) _) h m
    rw [hcube] at this
    exact_mod_cast this
  · intro h
    have h' : (N : ℝ) ≤ (k : ℝ) ^ (m : ℕ) := by exact_mod_cast h
    rw [← hcube] at h'
    exact (pow_le_pow_iff_left₀ (Real.rpow_nonneg (Nat.cast_nonneg N) _)
      (Nat.cast_nonneg k) hm).mp h'

theorem K2_eq_ceil (N : ℕ) : K2 N = ⌈(N : ℝ) ^ ((1 : ℝ) / 2)⌉₊ := by
  have key : ∀ k : ℕ, ((N : ℝ) ^ ((1 : ℝ) / 2) ≤ (k : ℝ) ↔ N ≤ k ^ 2) := by
    intro k
    have h := rpow_inv_nat_le_iff N k 2 two_ne_zero
    norm_num at h
    exact h
  apply le_antisymm
  · exact Nat.find_le ((key _).mp (Nat.le_ceil _))
  · rw [Nat.ceil_le, key]
    exact Nat.find_spec (exists_sq_ge N)

theorem K3_eq_ceil (N : ℕ) : K3 N = ⌈(N : ℝ) ^ ((1 : ℝ) / 3)⌉₊ := by
  have key : ∀ k : ℕ, ((N : ℝ) ^ ((1 : ℝ) / 3) ≤ (k : ℝ) ↔ N ≤ k ^ 3) := by
    intro k
    have h := rpow_inv_nat_le_iff N k 3 three_ne_zero
    norm_num at h
    exact h
  apply le_antisymm
  · exact Nat.find_le ((key _).mp (Nat.le_ceil _))
  · rw [Nat.ceil_le, key]
    exact Nat.find_spec (exists_cube_ge N)

/-- `spacing = params['D'] * 1.1`. -/
def spacing (D : ℚ) : ℚ := D * (11 / 10)

/-- The grid width `L = K * spacing` (doubles as the periodic box edge in
x and y). -/
def gridL (D : ℚ) (N : ℕ) : ℚ := (K2 N : ℚ) * spacing D

/-- `numpy.linspace(-L/2, L/2, K, endpoint=False)`: the `i`-th grid
coordinate `-L/2 + i * spacing`. -/
def xcoord (D : ℚ) (N : ℕ) (i : ℕ) : ℚ := -(gridL D N) / 2 + (i : ℚ) * spacing D

/-- `itertools.product(x, repeat=2)`: all grid points, first coordinate
varying slowest. -/
def positionAll (D : ℚ) (N : ℕ) : List (ℚ × ℚ) :=
  ((List.range (K2 N)).map (fun i =>
    (List.range (K2 N)).map (fun j => (xcoord D N i, xcoord D N j)))).flatten

/-- `position_2d = position_2d[0:N_particles]`. -/
def position_2d (D : ℚ) (N : ℕ) : List (ℚ × ℚ) :=
  (positionAll D N).take N

theorem positionAll_length (D : ℚ) (N : ℕ) :
    (positionAll D N).length = K2 N * K2 N := by
  unfold positionAll
  rw [List.length_flatten, List.map_map]
  have h : (List.length ∘ fun i =>
      (List.range (K2 N)).map (fun j => (xcoord D N i, xcoord D N j))) =
      fun _ => K2 N := by
    funext i
    simp
  rw [h, List.map_const', List.sum_replicate, smul_eq_mul, List.length_range]

theorem mem_positionAll (D : ℚ) (N : ℕ) (p : ℚ × ℚ) :
    p ∈ positionAll D N ↔
      ∃ i, i < K2 N ∧ ∃ j, j < K2 N ∧ p = (xcoord D N i, xcoord D N j) := by
  unfold positionAll
  simp only [List.mem_flatten, List.mem_map, List.mem_range]
  constructor
  · rintro ⟨l, ⟨i, hi, rfl⟩, hp⟩
    rcases List.mem_map.mp hp with ⟨j, hj, rfl⟩
    exact ⟨i, hi, j, List.mem_range.mp hj, rfl⟩
  · rintro ⟨i, hi, j, hj, rfl⟩
    exact ⟨_, ⟨i, hi, rfl⟩, List.mem_map.mpr ⟨j, List.mem_range.mpr hj, rfl⟩⟩

theorem xcoord_inj (D : ℚ) (N : ℕ) (hD : 0 < D) {i j : ℕ}
    (h : xcoord D N i = xcoord D N j) : i = j := by
  unfold xcoord at h
  have hs : spacing D ≠ 0 := by
    unfold spacing
    positivity
  have h' : (i : ℚ) = (j : ℚ) :=
    mul_right_cancel₀ hs (by linarith)
  exact_mod_cast h'

theorem positionAll_nodup (D : ℚ) (N : ℕ) (hD : 0 < D) :
    (positionAll D N).Nodup := by
  unfold positionAll
  rw [List.nodup_flatten]
  constructor
  · rintro l hl
    rcases List.mem_map.mp hl with ⟨i, _, rfl⟩
    refine List.Nodup.map ?_ (List.nodup_range _)
    intro a b hab
    exact xcoord_inj D N hD (congrArg Prod.snd hab)
  · rw [List.pairwise_map]
    refine (List.pairwise_lt_range _).imp ?_
    intro i i' hlt p hp hp'
    rcases List.mem_map.mp hp with ⟨j, _, rfl⟩
    rcases List.mem_map.mp hp' with ⟨j', _, h⟩
    exact absurd (xcoord_inj D N hD (congrArg Prod.fst h.symm)) (Nat.ne_of_lt hlt)

theorem coord_sep (D : ℚ) (N : ℕ) (hD : 0 < D) {i j : ℕ}
    (hi : i < K2 N) (hj : j < K2 N) (hne : i ≠ j) (n : ℤ) :
    (spacing D) ^ 2 ≤ (xcoord D N i - xcoord D N j + (n : ℚ) * gridL D N) ^ 2 := by
  have hs : 0 < spacing D := by
    unfold spacing
    positivity
  have hexp : xcoord D N i - xcoord D N j + (n : ℚ) * gridL D N =
      (((i : ℤ) - j + n * (K2 N) : ℤ) : ℚ) * spacing D := by
    unfold xcoord gridL
    push_cast
    ring
  have hane : ((i : ℤ) - j + n * (K2 N)) ≠ 0 := by
    intro h0
    have hK : ((K2 N : ℤ)) ∣ ((i : ℤ) - j) := ⟨-n, by linear_combination h0⟩
    obtain ⟨c, hc⟩ := hK
    rcases eq_or_ne c 0 with rfl | hc0
    · rw [mul_zero] at hc
      exact hne (by omega)
    · have hKnn : (0 : ℤ) ≤ (K2 N : ℤ) := Int.ofNat_nonneg _
      have h1 : (K2 N : ℤ) ≤ |(i : ℤ) - j| := by
        rw [hc, abs_mul, abs_of_nonneg hKnn]
        exact le_mul_of_one_le_right hKnn (Int.one_le_abs hc0)
      have h2 : |(i : ℤ) - j| < (K2 N : ℤ) := by
        rw [abs_sub_lt_iff]
        omega
      omega
  rw [hexp, mul_pow]
  have h1 : (1 : ℚ) ≤ (((i : ℤ) - j + n * (K2 N) : ℤ) : ℚ) ^ 2 := by
    have h1' : (1 : ℤ) ≤ ((i : ℤ) - j + n * (K2 N)) ^ 2 := by
      nlinarith [Int.one_le_abs hane, sq_abs ((i : ℤ) - j + n * (K2 N)),
        abs_nonneg ((i : ℤ) - j + n * (K2 N))]
    exact_mod_cast h1'
  nlinarith [sq_nonneg (spacing D)]

theorem pair_sep (D : ℚ) (N : ℕ) (hD : 0 < D) :
    ∀ p ∈ position_2d D N, ∀ q ∈ position_2d D N, p ≠ q → ∀ n₁ n₂ : ℤ,
      (spacing D) ^ 2 ≤ (p.1 - q.1 + (n₁ : ℚ) * gridL D N) ^ 2 +
        (p.2 - q.2 + (n₂ : ℚ) * gridL D N) ^ 2 := by
  intro p hp q hq hpq n₁ n₂
  obtain ⟨i, hi, j, hj, rfl⟩ :=
    (mem_positionAll D N p).mp (List.mem_of_mem_take hp)
  obtain ⟨i', hi', j', hj', rfl⟩ :=
    (mem_positionAll D N q).mp (List.mem_of_mem_take hq)
  by_cases hii : i = i'
  · have hjj : j ≠ j' := by
      intro h
      exact hpq (by rw [hii, h])
    have h2 := coord_sep D N hD hj hj' hjj n₂
    have h1 := sq_nonneg (xcoord D N i - xcoord D N i' + (n₁ : ℚ) * gridL D N)
    simpa using by linarith
  · have h1 := coord_sep D N hD hi hi' hii n₁
    have h2 := sq_nonneg (xcoord D N j - xcoord D N j' + (n₂ : ℚ) * gridL D N)
    simpa using by linarith

/-- The 3-D positions written to the snapshot: each grid point at `z = 0`
(`snapshot.particles.position[:,0:2] = position_2d`, third column zero). -/
def position3 (D : ℚ) (N : ℕ) : List (ℚ × ℚ × ℚ) :=
  (position_2d D N).map (fun p => (p.1, p.2, (0 : ℚ)))

/-- Modelled from the spec: overlap of two spherocylinders of diameter `D`
and cylinder length `Lc`, both axis-aligned with `z` (identity
orientation), under the periodic box `(Lx, Ly, Lz)`.  For parallel
`z`-aligned axis segments the exact segment-segment distance squared is
`dx^2 + dy^2 + (max 0 (|dz| - Lc))^2`, and two spherocylinders overlap iff
some periodic image brings it below `D^2`. -/
def scOverlap (D Lc Lx Ly Lz : ℚ) (p q : ℚ × ℚ × ℚ) : Prop :=
  ∃ n₁ n₂ n₃ : ℤ,
    (p.1 - q.1 + (n₁ : ℚ) * Lx) ^ 2 + (p.2.1 - q.2.1 + (n₂ : ℚ) * Ly) ^ 2 +
      (max 0 (|p.2.2 - q.2.2 + (n₃ : ℚ) * Lz| - Lc)) ^ 2 < D ^ 2

theorem no_overlap (D Lcyl : ℚ) (N : ℕ) (hD : 0 < D) (hLc : 0 ≤ Lcyl) :
    ∀ p ∈ position3 D N, ∀ q ∈ position3 D N, p ≠ q →
      ¬ scOverlap D Lcyl (gridL D N) (gridL D N) (2 * (Lcyl + D)) p q := by
  intro p3 hp3 q3 hq3 hne hov
  obtain ⟨p, hp, rfl⟩ := List.mem_map.mp hp3
  obtain ⟨q, hq, rfl⟩ := List.mem_map.mp hq3
  have hpq : p ≠ q := by
    intro h
    exact hne (by rw [h])
  obtain ⟨n₁, n₂, n₃, hlt⟩ := hov
  simp only at hlt
  have hxy := pair_sep D N hD p hp q hq hpq n₁ n₂
  rcases eq_or_ne n₃ 0 with rfl | hn3
  · have hz : (max 0 (|(0 : ℚ) - 0 + (((0 : ℤ) : ℚ)) * (2 * (Lcyl + D))| - Lcyl)) = 0 := by
      simp [hLc]
    rw [hz] at hlt
    have hsp : (spacing D) ^ 2 = (121 / 100) * D ^ 2 := by
      unfold spacing
      ring
    nlinarith
  · have hLz : 0 < 2 * (Lcyl + D) := by linarith
    have habs : |(0 : ℚ) - 0 + ((n₃ : ℚ)) * (2 * (Lcyl + D))| ≥ 2 * (Lcyl + D) := by
      rw [zero_sub, neg_zero, zero_add, abs_mul, abs_of_pos hLz]
      have h1 : (1 : ℚ) ≤ |(n₃ : ℚ)| := by
        have := Int.one_le_abs hn3
        calc (1:ℚ) ≤ ((|n₃| : ℤ) : ℚ) := by exact_mod_cast this
          _ = |(n₃ : ℚ)| := by push_cast; rfl
      nlinarith
    have hterm : (2 * D) ≤ max 0 (|(0 : ℚ) - 0 + ((n₃ : ℚ)) * (2 * (Lcyl + D))| - Lcyl) := by
      have : (2 * D) ≤ |(0 : ℚ) - 0 + ((n₃ : ℚ)) * (2 * (Lcyl + D))| - Lcyl := by
        linarith
      exact le_max_of_le_right this
    have hsq : (2 * D) ^ 2 ≤
        (max 0 (|(0 : ℚ) - 0 + ((n₃ : ℚ)) * (2 * (Lcyl + D))| - Lcyl)) ^ 2 :=
      pow_le_pow_left₀ (by linarith) hterm 2
    have h1 := sq_nonneg (p.1 - q.1 + (n₁ : ℚ) * gridL D N)
    have h2 := sq_nonneg (p.2 - q.2 + (n₂ : ℚ) * gridL D N)
    nlinarith

/-- C9: for `N >= 1` particles and positive diameter, the lattice grid
side `K` is the ceiling of the real square root (square grid) or cube root
(cubic grid) of `N`, so `K^2` (resp. `K^3`) is at least `N`; truncating
the grid-point list to `N` entries yields exactly `N` pairwise-distinct
positions; distinct positions stay at squared distance at least
`(1.1*D)^2` under every periodic image of the box; and the configuration
written to `lattice.gsd` (grid points at `z = 0` in the box
`[L, L, 2*(Lcyl+D)]`) has no overlapping pair of spherocylinders. -/
theorem claim_C9_lattice (D Lcyl : ℚ) (N : ℕ)
    (hN : 1 ≤ N) (hD : 0 < D) (hLc : 0 ≤ Lcyl) :
    K2 N = ⌈(N : ℝ) ^ ((1 : ℝ) / 2)⌉₊ ∧
    K3 N = ⌈(N : ℝ) ^ ((1 : ℝ) / 3)⌉₊ ∧
    N ≤ K2 N ^ 2 ∧ N ≤ K3 N ^ 3 ∧
    (position_2d D N).length = N ∧
    (position_2d D N).Nodup ∧
    (∀ p ∈ position_2d D N, ∀ q ∈ position_2d D N, p ≠ q → ∀ n₁ n₂ : ℤ,
      (spacing D) ^ 2 ≤ (p.1 - q.1 + (n₁ : ℚ) * gridL D N) ^ 2 +
        (p.2 - q.2 + (n₂ : ℚ) * gridL D N) ^ 2) ∧
    (∀ p ∈ position3 D N, ∀ q ∈ position3 D N, p ≠ q →
      ¬ scOverlap D Lcyl (gridL D N) (gridL D N) (2 * (Lcyl + D)) p q) := by
  refine ⟨K2_eq_ceil N, K3_eq_ceil N, Nat.find_spec (exists_sq_ge N),
    Nat.find_spec (exists_cube_ge N), ?_, ?_, pair_sep D N hD, no_overlap D Lcyl N hD hLc⟩
  · unfold position_2d
    rw [List.length_take, positionAll_length]
    have := Nat.find_spec (exists_sq_ge N)
    have hsq : N ≤ K2 N * K2 N := by
      calc N ≤ K2 N ^ 2 := Nat.find_spec (exists_sq_ge N)
        _ = K2 N * K2 N := sq (K2 N)
    omega
  · exact (List.take_sublist N _).nodup (positionAll_nodup D N hD)

theorem claim_C9_witness :
    1 ≤ 5 ∧ (0 : ℚ) < 1 ∧ (0 : ℚ) ≤ 4 ∧
    (K2 5 = ⌈(5 : ℝ) ^ ((1 : ℝ) / 2)⌉₊ ∧
    K3 5 = ⌈(5 : ℝ) ^ ((1 : ℝ) / 3)⌉₊ ∧
    5 ≤ K2 5 ^ 2 ∧ 5 ≤ K3 5 ^ 3 ∧
    (position_2d 1 5).length = 5 ∧
    (position_2d 1 5).Nodup ∧
    (∀ p ∈ position_2d 1 5, ∀ q ∈ position_2d 1 5, p ≠ q → ∀ n₁ n₂ : ℤ,
      (spacing 1) ^ 2 ≤ (p.1 - q.1 + (n₁ : ℚ) * gridL 1 5) ^ 2 +
        (p.2 - q.2 + (n₂ : ℚ) * gridL 1 5) ^ 2) ∧
    (∀ p ∈ position3 1 5, ∀ q ∈ position3 1 5, p ≠ q →
      ¬ scOverlap 1 4 (gridL 1 5) (gridL 1 5) (2 * (4 + 1)) p q)) :=
  ⟨by decide, by norm_num, by norm_num,
    claim_C9_lattice 1 4 5 (by decide) (by norm_num) (by norm_num)⟩

/-! ### Full workflow determinism (C10)

`run_simulation(params)` chains `initialize`, `randomize`, `compress`,
`equilibrate`.  The lattice stage is embedded above; the three simulation
stages are abstracted as an engine whose runs are deterministic functions
of the integrator seed, the shape parameters and the input file — the
source states that given the same initial condition and the same seed the
HPMC engine reproduces exactly the same results, and every seed in
`run_simulation` comes from `params` (`make_hard_spherocylinder_integrator`
and `QuickCompress` both receive `params` seed). -/

/-- The parameter dictionary
`dict(D=..., L=..., rho_star=..., seed=..., N_particles=...)`. -/
structure SimParams where
  D : ℚ
  L : ℚ
  rho_star : ℚ
  seed : ℕ
  N_particles : ℕ
  deriving DecidableEq, Repr

/-- Modelled from the spec: the external seeded HPMC engine.  Each stage
is a pure function of the seed, the particle shape `(D, L)`, the target
parameters and the input-file contents; this encodes that the engine has
no source of randomness other than its seed. -/
structure Engine (σ : Type) where
  randomizeRun : ℕ → (ℚ × ℚ) → (List (ℚ × ℚ × ℚ) × ℚ × ℚ) → σ
  compressRun : ℕ → (ℚ × ℚ) → ℚ → ℕ → σ → σ
  equilibrateRun : ℕ → (ℚ × ℚ) → σ → σ

/-- The contents of `lattice.gsd`: the grid positions at `z = 0` and the
box edges `[L, L, 2*(params.L + D)]` computed by `initialize`. -/
def latticeFile (p : SimParams) : List (ℚ × ℚ × ℚ) × ℚ × ℚ :=
  (position3 p.D p.N_particles, gridL p.D p.N_particles, 2 * (p.L + p.D))

/-- `run_simulation(params)`: the four files
`lattice.gsd, random.gsd, compressed.gsd, trajectory.gsd`, each stage
reading the previous stage's output. -/
def run_simulation {σ : Type} (e : Engine σ) (p : SimParams) :
    (List (ℚ × ℚ × ℚ) × ℚ × ℚ) × σ × σ × σ :=
  let lattice := latticeFile p
  let random := e.randomizeRun p.seed (p.D, p.L) lattice
  let compressed := e.compressRun p.seed (p.D, p.L) p.rho_star p.N_particles random
  let trajectory := e.equilibrateRun p.seed (p.D, p.L) compressed
  (lattice, random, compressed, trajectory)

/-- C10: for any deterministic seeded engine, two invocations of
`run_simulation` whose parameter dictionaries agree on `D`, `L`,
`rho_star`, `seed` and `N_particles` produce identical contents for all
four output files — the workflow consumes no input besides the parameter
dictionary, and every random stream is seeded from it. -/
theorem claim_C10_deterministic {σ : Type} (e : Engine σ) (p₁ p₂ : SimParams)
    (hD : p₁.D = p₂.D) (hL : p₁.L = p₂.L) (hrs : p₁.rho_star = p₂.rho_star)
    (hseed : p₁.seed = p₂.seed) (hN : p₁.N_particles = p₂.N_particles) :
    run_simulation e p₁ = run_simulation e p₂ := by
  have h : p₁ = p₂ := by
    cases p₁
    cases p₂
    simp_all
  rw [h]

theorem claim_C10_witness :
    run_simulation ⟨fun _ _ _ => (0 : ℕ), fun _ _ _ _ s => s, fun _ _ s => s⟩
        ⟨1, 5, 53/100, 1, 50⟩ =
      run_simulation ⟨fun _ _ _ => (0 : ℕ), fun _ _ _ _ s => s, fun _ _ s => s⟩
        ⟨1, 5, 53/100, 1, 50⟩ :=
  claim_C10_deterministic ⟨fun _ _ _ => (0 : ℕ), fun _ _ _ _ s => s, fun _ _ s => s⟩
    ⟨1, 5, 53/100, 1, 50⟩ ⟨1, 5, 53/100, 1, 50⟩ rfl rfl rfl rfl rfl

end SoftMatter
